import Mathlib

/-!
Verification development for `recurrentshop/engine.py`.

The file shallowly embeds the data model and the operations of the source:
symbolic engine tensors become an inductive `Tensor`, the two kinds of
sub-units (`RNNCell` subclasses and plain layers) become the tagged union
`SubUnit`, and each method of `RecurrentContainer` becomes a pure function.
Methods that can raise (`reset_states`, `add`, `pop`) return the resulting
object together with an optional raised message, mirroring the fact that a
Python exception propagates while leaving already-performed attribute writes
in place.  External engine facilities (`K.rnn`, `Sequential` serialization)
are taken as explicit function arguments, since the source treats them as
black boxes.
-/

set_option maxHeartbeats 1000000

mutual

/-- A shape dimension as it appears in state-shape specifications and in
resolved shapes: a concrete integer, one of the two sentinel strings the
engine recognizes, or a symbolic scalar taken from the runtime shape of a
tensor (the expression `K.shape(x)[i]` in the source). -/
inductive Dim where
  | int (n : Int)
  | batch_size
  | input_length
  | kshape (x : Tensor) (i : Nat)

/-- A literal numeric array (a numpy value): an arbitrary literal array,
or the zero-filled array `np.zeros(shape)`. -/
inductive NpArray where
  | lit (id : Nat)
  | zeros (shape : List Dim)

/-- A symbolic engine tensor. `kvar` is `K.variable(arr)`, `kzeros` is the
backend zero-filled tensor `k.zeros(shape)`, `initT` is the tensor produced
by a named initializer applied to a static shape, `slice0` is the slice of
the first timestep `x[:, 0]`, and `sym` is an arbitrary pre-built tensor
handle. -/
inductive Tensor where
  | kvar (a : NpArray)
  | kzeros (shape : List Dim)
  | initT (nm : String) (shape : List Int)
  | slice0 (x : Tensor)
  | sym (id : Nat)

end

/-- Whether a dimension is a concrete (static) integer. -/
def Dim.isConcreteInt : Dim → Bool
  | .int _ => true
  | _ => false

/-- Result of resolving one state specification.  The Python code may obtain
either a single tensor or a list of tensors (a callable specification may
return a list). -/
inductive StateVal where
  | single (t : Tensor)
  | list (ts : List Tensor)

/-- Mirrors `if type(state) != list: state = [state]` in
`get_initial_states`. -/
def StateVal.toList : StateVal → List Tensor
  | .single t => [t]
  | .list ts => ts

/-- One declared state specification of a cell: an entry of `layer.states` in
the source.  The four constructors correspond to the four duck-typed cases
the source distinguishes: a callable, a shape tuple (or list), a literal
numpy array, and an already-built tensor. -/
inductive StateSpec where
  | callable (f : Tensor → StateVal)
  | shape (dims : List Dim)
  | numpy (a : NpArray)
  | tensor (t : Tensor)

/-- A regularizer object.  `param` is the tensor it has been bound to via
`set_param`, if any. -/
structure Regularizer where
  id : Nat
  param : Option Tensor

/-- Source `regularizer.set_param(tensor)` binds the regularizer to a tensor. -/
def Regularizer.set_param (r : Regularizer) (t : Tensor) : Regularizer :=
  { r with param := some t }

/-- The `weight` class of engine.py after `__init__` has run: a value tensor,
an optional regularizer and a trainability flag. -/
structure weight where
  value : Tensor
  regularizer : Option Regularizer
  trainable : Bool

/-- The possible `value` arguments of `weight.__init__`: an int (promoted to
a 1-tuple shape), a shape tuple or list, a literal numpy array, or an
already-existing tensor. -/
inductive WVal where
  | int (n : Int)
  | shape (dims : List Int)
  | numpy (a : NpArray)
  | tensor (t : Tensor)

/-- Source `weight.__init__(value, init, regularizer, trainable)`: an int or shape
is materialized through the named initializer, a numpy array is wrapped with
`K.variable`, and anything else is kept as the value unchanged.  (The
string-to-object regularizer lookup is external; the regularizer argument is
modelled directly as the looked-up object.) -/
def weight.make (value : WVal) (initName : String) (regularizer : Option Regularizer)
    (trainable : Bool) : weight :=
  match value with
  | .int n => { value := Tensor.initT initName [n], regularizer := regularizer, trainable := trainable }
  | .shape dims => { value := Tensor.initT initName dims, regularizer := regularizer, trainable := trainable }
  | .numpy a => { value := Tensor.kvar a, regularizer := regularizer, trainable := trainable }
  | .tensor t => { value := t, regularizer := regularizer, trainable := trainable }

/-- The three attributes written by the `weights` setter of `RNNCell`. -/
structure CellWeights where
  trainable_weights : List Tensor
  non_trainable_weights : List Tensor
  regularizers : List Regularizer

/-- An entry of the list assigned to `RNNCell.weights`: either already a
`weight` instance, or a raw value that the setter wraps as
`weight(w)` with the constructor defaults. -/
inductive WeightsEntry where
  | wrapped (w : weight)
  | raw (v : WVal)

/-- Source `if not isinstance(w, weight): w = weight(w)` — a raw entry is wrapped
with the default initializer name, no regularizer and `trainable=True`. -/
def WeightsEntry.toWeight : WeightsEntry → weight
  | .wrapped w => w
  | .raw v => weight.make v "glorot_uniform" none true

/-- One iteration of the loop in the `weights` setter. -/
def weightsSetterStep (acc : CellWeights) (e : WeightsEntry) : CellWeights :=
  { trainable_weights := acc.trainable_weights ++
      (if e.toWeight.trainable then [e.toWeight.value] else [])
    non_trainable_weights := acc.non_trainable_weights ++
      (if e.toWeight.trainable then [] else [e.toWeight.value])
    regularizers := acc.regularizers ++
      (match e.toWeight.regularizer with
       | some r => [r.set_param e.toWeight.value]
       | none => []) }

/-- The `weights` setter of `RNNCell` (engine.py lines 83-97).  The method
first resets `trainable_weights`, `non_trainable_weights` and `regularizers`
to empty lists — discarding `prior` entirely — and then folds over the
assigned entries. -/
def RNNCell.set_weights (prior : CellWeights) (ws : List WeightsEntry) : CellWeights :=
  let _ := prior
  ws.foldl weightsSetterStep
    { trainable_weights := [], non_trainable_weights := [], regularizers := [] }

/-- The argument list built by `RNNCell._step` (engine.py lines 61-68):
`args = [x, states]`, extended with `self.weights` when the attribute exists
(it always does — `weights` is a property of the class), extended with
`self.constants` when that attribute exists, and finally truncated to
`len(getargspec(self.step).args)` — the declared parameter count of the
user step function as reported by reflection, which for a bound method
includes the implicit `self`. -/
def RNNCell.step_args {α : Type} (x states ws : α) (constants : Option α)
    (has_weights : Bool) (argspec_len : Nat) : List α :=
  (([x, states] ++ (if has_weights then [ws] else []))
      ++ (match constants with | some cs => [cs] | none => [])).take argspec_len

/-- Source `RNNCell.get_output_shape_for` (engine.py lines 99-103): replace the last
dimension with `output_dim` when the cell declares one, otherwise the input
shape unchanged. -/
def RNNCell.get_output_shape_for (output_dim : Option Int)
    (input_shape : List (Option Int)) : List (Option Int) :=
  match output_dim with
  | some d => input_shape.dropLast ++ [some d]
  | none => input_shape

/-- A sub-unit of a `RecurrentContainer`: either an `RNNCell` (with its input
spec shape, declared state specifications, `_step` dispatch viewed as a
function of the input and the state slice, and optional declared output
width), or a plain stateless layer (with its input spec shape, `call`
function and shape-inference function). -/
inductive SubUnit where
  | cell (input_shape : List (Option Int)) (states : List StateSpec)
      (stepF : Tensor → List Tensor → Tensor × List Tensor) (output_dim : Option Int)
  | plain (input_shape : List (Option Int)) (callF : Tensor → Tensor)
      (oshapeF : List (Option Int) → List (Option Int))

/-- Source `layer.input_spec[0].shape`. -/
def SubUnit.input_spec_shape : SubUnit → List (Option Int)
  | .cell s _ _ _ => s
  | .plain s _ _ => s

/-- The declared state specifications of a sub-unit: `layer.states` for a
cell, nothing for a plain layer. -/
def SubUnit.cellStates : SubUnit → List StateSpec
  | .cell _ sts _ _ => sts
  | .plain _ _ _ => []

/-- Source `len(layer.states)` for a cell, 0 for a plain layer. -/
def SubUnit.stateCount (u : SubUnit) : Nat := (SubUnit.cellStates u).length

/-- A cell obeys the step contract: its step returns exactly as many new
states as it declares. -/
def SubUnit.stepPreservesArity : SubUnit → Prop
  | .cell _ sts f _ => ∀ a s, ((f a s).2).length = sts.length
  | .plain _ _ _ => True

/-- Per-sub-unit shape inference: a cell uses `RNNCell.get_output_shape_for`,
a plain layer uses its own shape function. -/
def SubUnit.get_output_shape_for : SubUnit → List (Option Int) → List (Option Int)
  | .cell _ _ _ od, s => RNNCell.get_output_shape_for od s
  | .plain _ _ oshapeF, s => oshapeF s

/-- Modelled external collaborator: `Sequential.output_shape` of the wrapped
Keras pipeline — the per-timestep shape obtained by applying each sub-unit's
shape inference in order, starting from the first sub-unit's input shape
(spec section 4.2: the wrapped pipeline's output shape as if sub-units were
applied in sequence to a single timestep). -/
def Sequential.output_shape : List SubUnit → List (Option Int)
  | [] => []
  | u :: rest => (u :: rest).foldl (fun s l => SubUnit.get_output_shape_for l s)
      (SubUnit.input_spec_shape u)

/-- Python list slice assignment `l[i : i+n] = new`, as a pure function. -/
def listSplice {α : Type} (l : List α) (i n : Nat) (new : List α) : List α :=
  l.take i ++ new ++ l.drop (i + n)

/-- The loop of `RecurrentContainer.step` (engine.py lines 156-167):
iterate sub-units in order; a cell receives the current input and the slice
`states[state_index : state_index + len(layer.states)]`, its returned new
states are written back into that slice, and `state_index` advances by
`len(layer.states)`; a plain layer only transforms the running input. -/
def stepGo : List SubUnit → Tensor → List Tensor → Nat → Tensor × List Tensor
  | [], x, states, _ => (x, states)
  | SubUnit.cell _ sts f _ :: rest, x, states, idx =>
      let r := f x ((states.drop idx).take sts.length)
      stepGo rest r.1 (listSplice states idx sts.length r.2) (idx + sts.length)
  | SubUnit.plain _ g _ :: rest, x, states, idx =>
      stepGo rest (g x) states idx

/-- Source `RecurrentContainer.step(x, states)` with `self.model.layers` passed
explicitly. -/
def RecurrentContainer.step (layers : List SubUnit) (x : Tensor)
    (states : List Tensor) : Tensor × List Tensor :=
  stepGo layers x states 0

/-- The write trace of the composite step: the `(state_index, new_states)`
pair of every cell invocation, in invocation order, recomputed by the same
loop as `stepGo`. -/
def stepWritesGo : List SubUnit → Tensor → List Tensor → Nat → List (Nat × List Tensor)
  | [], _, _, _ => []
  | SubUnit.cell _ sts f _ :: rest, x, states, idx =>
      let r := f x ((states.drop idx).take sts.length)
      (idx, r.2) :: stepWritesGo rest r.1 (listSplice states idx sts.length r.2) (idx + sts.length)
  | SubUnit.plain _ g _ :: rest, x, states, idx =>
      stepWritesGo rest (g x) states idx

/-- Write trace of a full composite-step call. -/
def stepWrites (layers : List SubUnit) (x : Tensor) (states : List Tensor) :
    List (Nat × List Tensor) :=
  stepWritesGo layers x states 0

/-- The stable state-vector offsets of the cells of a sub-unit list, in
declaration order: each cell's offset is the sum of the declared state counts
of the cells before it. -/
def cellOffsetsGo : List SubUnit → Nat → List Nat
  | [], _ => []
  | SubUnit.cell _ sts _ _ :: rest, idx => idx :: cellOffsetsGo rest (idx + sts.length)
  | SubUnit.plain _ _ _ :: rest, idx => cellOffsetsGo rest idx

/-- Offsets of a sub-unit list, starting at 0. -/
def cellOffsets (layers : List SubUnit) : List Nat := cellOffsetsGo layers 0

/-- Total declared state count of a sub-unit list. -/
def totalStates (layers : List SubUnit) : Nat :=
  (layers.map SubUnit.stateCount).sum

/-- The `RecurrentContainer` object: the constructor flags, the wrapped
`Sequential` pipeline as its layer list, the container input spec shape
(`input_spec[0].shape`, set by the first `add`), the persistent state vector
(`self.states`, set by `reset_states`), and the recorded deferred updates
(`self.updates`, set by `call` in stateful mode). -/
structure RecurrentContainer where
  return_sequences : Bool
  initial_weights : Option (List Tensor)
  go_backwards : Bool
  stateful : Bool
  input_length : Option Int
  unroll : Bool
  model : List SubUnit
  input_spec_shape : List (Option Int)
  states : List Tensor
  updates : Option (List (Tensor × Tensor))

/-- Source `RecurrentContainer.__init__` (engine.py lines 108-117). -/
def RecurrentContainer.mkNew (weights : Option (List Tensor))
    (return_sequences go_backwards stateful : Bool) (input_length : Option Int)
    (unroll : Bool) : RecurrentContainer :=
  { return_sequences := return_sequences
    initial_weights := weights
    go_backwards := go_backwards
    stateful := stateful
    input_length := input_length
    unroll := unroll
    model := []
    input_spec_shape := []
    states := []
    updates := none }

/-- The assertion message used by `reset_states`. -/
def statefulMsg : String := "Stateful RNNs require states with static shapes"

/-- Sentinel substitution in `reset_states` (engine.py lines 219-226): `-1`
and `'batch_size'` are replaced by the batch size and `'input_length'` by the
input length, each guarded by `assert type(...) == int`; a dimension that is
no sentinel passes through unchanged. -/
def substStatefulDim (bs il : Option Int) (d : Dim) : Except String Dim :=
  match d with
  | .int n =>
      if n = -1 then
        match bs with
        | some b => .ok (.int b)
        | none => .error statefulMsg
      else .ok (.int n)
  | .batch_size =>
      match bs with
      | some b => .ok (.int b)
      | none => .error statefulMsg
  | .input_length =>
      match il with
      | some l => .ok (.int l)
      | none => .error statefulMsg
  | d => .ok d

/-- One state spec processed by `reset_states`: the leading assertion rejects
anything that is not a tuple, a list or a numpy array; a numpy array becomes
`K.variable(state)`; a shape becomes `K.variable(np.zeros(substituted))`. -/
def resetStateOfSpec (bs il : Option Int) (s : StateSpec) : Except String Tensor :=
  match s with
  | .numpy a => .ok (Tensor.kvar a)
  | .shape dims =>
      (dims.mapM (substStatefulDim bs il)).map
        (fun ds => Tensor.kvar (NpArray.zeros ds))
  | .callable _ => .error statefulMsg
  | .tensor _ => .error statefulMsg

/-- The full state list built by `reset_states` over every state spec of
every cell sub-unit, in order. -/
def resetStatesList (bs il : Option Int) (layers : List SubUnit) :
    Except String (List Tensor) :=
  ((layers.map SubUnit.cellStates).flatten).mapM (resetStateOfSpec bs il)

/-- Source `RecurrentContainer.reset_states` (engine.py lines 208-228).  The local
list is built first and `self.states` is assigned only at the end, so when
any assertion fires the stored persistent state vector is untouched.  The
result is the post-call object together with the raised message, if any. -/
def RecurrentContainer.reset_states (c : RecurrentContainer) :
    RecurrentContainer × Option String :=
  match resetStatesList (c.input_spec_shape.getD 0 none)
      (c.input_spec_shape.getD 1 none) c.model with
  | .ok sts => ({ c with states := sts }, none)
  | .error m => (c, some m)

/-- Source `RecurrentContainer.add` (engine.py lines 119-131): append to the
pipeline; if this was the first sub-unit, derive the container input shape by
inserting the configured input length as the time dimension into the
sub-unit's input shape; if stateful, rebuild the persistent state buffers. -/
def RecurrentContainer.add (c : RecurrentContainer) (layer : SubUnit) :
    RecurrentContainer × Option String :=
  let newShape :=
    if (c.model ++ [layer]).length = 1 then
      (SubUnit.input_spec_shape layer).getD 0 none ::
        c.input_length :: (SubUnit.input_spec_shape layer).drop 1
    else c.input_spec_shape
  let c2 := { c with model := c.model ++ [layer], input_spec_shape := newShape }
  if c2.stateful then c2.reset_states else (c2, none)

/-- Source `RecurrentContainer.pop` (engine.py lines 133-138): drop the last
sub-unit; if stateful, rebuild the persistent state buffers. -/
def RecurrentContainer.pop (c : RecurrentContainer) :
    RecurrentContainer × Option String :=
  let c1 := { c with model := c.model.dropLast }
  if c1.stateful then c1.reset_states else (c1, none)

/-- Source `RecurrentContainer.output_shape` (engine.py lines 144-151): the wrapped
pipeline's per-timestep output shape, with the stored input length spliced
back in as the time dimension when full sequences are returned. -/
def RecurrentContainer.output_shape (c : RecurrentContainer) : List (Option Int) :=
  let input_length := c.input_spec_shape.getD 1 none
  let shape := Sequential.output_shape c.model
  if c.return_sequences then shape.getD 0 none :: input_length :: shape.drop 1
  else shape

/-- Source `RecurrentContainer.get_output_shape_for` (engine.py lines 153-154):
`return self.output_shape` — the argument is ignored. -/
def RecurrentContainer.get_output_shape_for (c : RecurrentContainer)
    (input_shape : List (Option Int)) : List (Option Int) :=
  let _ := input_shape
  c.output_shape

/-- Sentinel substitution in `_get_state_from_info` (engine.py lines
234-239): `-1` and `'batch_size'` become the resolved batch size,
`'input_length'` becomes the resolved input length, anything else is kept. -/
def substDim (bs il : Dim) (d : Dim) : Dim :=
  match d with
  | .int n => if n = -1 then bs else .int n
  | .batch_size => bs
  | .input_length => il
  | d => d

/-- Source `RecurrentContainer._get_state_from_info` (engine.py lines 230-248): a
callable is invoked with the running input; a shape tuple undergoes sentinel
substitution and is materialized as a backend zero tensor; a numpy array is
wrapped as an engine variable; anything else passes through unchanged. -/
def RecurrentContainer.get_state_from_info (info : StateSpec) (input : Tensor)
    (bs il : Dim) : StateVal :=
  match info with
  | .callable f => f input
  | .shape dims => .single (Tensor.kzeros (dims.map (substDim bs il)))
  | .numpy a => .single (Tensor.kvar a)
  | .tensor t => .single t

/-- Source `RecurrentContainer._get_first_timestep` (engine.py lines 250-253):
slice index 0 of the time axis. -/
def RecurrentContainer.get_first_timestep (x : Tensor) : Tensor :=
  Tensor.slice0 x

/-- The loop of `get_initial_states` (engine.py lines 194-206): for a cell,
resolve each declared state spec against the running input, flatten, append
to the initial state vector, and advance the running input by invoking the
cell's step dispatch once; for a plain layer, only advance the running
input. -/
def initialStatesGo : List SubUnit → Tensor → Dim → Dim → List Tensor
  | [], _, _, _ => []
  | SubUnit.cell _ sts f _ :: rest, input, bs, il =>
      let lis := (sts.map
        (fun s => (RecurrentContainer.get_state_from_info s input bs il).toList)).flatten
      lis ++ initialStatesGo rest (f input lis).1 bs il
  | SubUnit.plain _ g _ :: rest, input, bs, il =>
      initialStatesGo rest (g input) bs il

/-- Source `RecurrentContainer.get_initial_states` (engine.py lines 185-206): the
batch size and input length come from the stored input spec when static and
fall back to the symbolic runtime dimensions `K.shape(x)[0]` and
`K.shape(x)[1]` otherwise; the running input starts as the first timestep
slice of `x`. -/
def RecurrentContainer.get_initial_states (c : RecurrentContainer) (x : Tensor) :
    List Tensor :=
  let bsv : Dim :=
    match c.input_spec_shape.getD 0 none with
    | some n => Dim.int n
    | none => Dim.kshape x 0
  let ilv : Dim :=
    match c.input_spec_shape.getD 1 none with
    | some n => Dim.int n
    | none => Dim.kshape x 1
  initialStatesGo c.model (RecurrentContainer.get_first_timestep x) bsv ilv

/-- The result triple of the external scan primitive `K.rnn`. -/
structure RnnResult where
  last_output : Tensor
  outputs : Tensor
  states : List Tensor

/-- The type of the external scan primitive `K.rnn(step_fn, inputs,
initial_states, go_backwards, mask, unroll, input_length)`. -/
def KRnn : Type :=
  (Tensor → List Tensor → Tensor × List Tensor) → Tensor → List Tensor →
    Bool → Option Tensor → Bool → Option Int → RnnResult

/-- Source `RecurrentContainer.call` (engine.py lines 169-183): choose the initial
state (persistent vector when stateful, fresh construction otherwise),
delegate to the scan primitive, in stateful mode record the
`(self.states[i], states[i])` update pairs, and return the full output
sequence or the last output according to `return_sequences`.  The result is
the returned tensor together with the post-call object. -/
def RecurrentContainer.call (c : RecurrentContainer) (krnn : KRnn) (x : Tensor)
    (mask : Option Tensor) : Tensor × RecurrentContainer :=
  let input_shape := c.input_spec_shape
  let initial_states := if c.stateful then c.states else c.get_initial_states x
  let r := krnn (RecurrentContainer.step c.model) x initial_states
    c.go_backwards mask c.unroll (input_shape.getD 1 none)
  let c2 :=
    if c.stateful then
      { c with updates := some ((List.range r.states.length).map
          (fun i => (c.states.getD i (Tensor.sym 0), r.states.getD i (Tensor.sym 0)))) }
    else c
  ((if c.return_sequences then r.outputs else r.last_output), c2)

/-- The configuration produced by `RecurrentContainer.get_config` (engine.py
lines 283-289): the five mode flags plus the serialized pipeline.  `MC` is
the (external) serialized form of a `Sequential` model.  The merged
base-layer configuration is owned by the external layer base class and is
not modelled. -/
structure RCConfig (MC : Type) where
  return_sequences : Bool
  go_backwards : Bool
  stateful : Bool
  input_length : Option Int
  unroll : Bool
  model : MC

/-- Source `RecurrentContainer.get_config`, with the external `Sequential.get_config`
passed explicitly. -/
def RecurrentContainer.get_config {MC : Type} (c : RecurrentContainer)
    (seq_get : List SubUnit → MC) : RCConfig MC :=
  { return_sequences := c.return_sequences
    go_backwards := c.go_backwards
    stateful := c.stateful
    input_length := c.input_length
    unroll := c.unroll
    model := seq_get c.model }

/-- Source `RecurrentContainer.from_config` (engine.py lines 291-297): the model
entry is split off, the flags are rebuilt first through the constructor, and
the pipeline is then rebuilt from its serialized form through the external
`Sequential.from_config`. -/
def RecurrentContainer.from_config {MC : Type} (config : RCConfig MC)
    (seq_from : MC → List SubUnit) : RecurrentContainer :=
  let rc := RecurrentContainer.mkNew none config.return_sequences
    config.go_backwards config.stateful config.input_length config.unroll
  { rc with model := seq_from config.model }

/-- The claim C5 condition on a state specification: it is a callable or a
raw tensor, or a shape whose batch-size sentinel (`-1` or `'batch_size'`)
appears while the stored batch size is not a concrete integer, or whose
input-length sentinel appears while the stored input length is not a
concrete integer. -/
def specStaticallyBad (bs il : Option Int) : StateSpec → Bool
  | .callable _ => true
  | .tensor _ => true
  | .numpy _ => false
  | .shape dims => dims.any (fun d =>
      ((match d with | .int n => decide (n = -1) | .batch_size => true | _ => false)
        && bs.isNone)
      || ((match d with | .input_length => true | _ => false) && il.isNone))

/-- Following the spec's words for claim C8: the values of the
Parameter-wrapped entries whose trainability flag is set, in order. -/
def claimTrainable (ws : List WeightsEntry) : List Tensor :=
  ws.filterMap (fun e => if e.toWeight.trainable then some e.toWeight.value else none)

/-- Following the spec's words for claim C8: the values of the entries whose
trainability flag is cleared, in order. -/
def claimNonTrainable (ws : List WeightsEntry) : List Tensor :=
  ws.filterMap (fun e => if e.toWeight.trainable then none else some e.toWeight.value)

/-- Following the spec's words for claim C8: every present regularizer,
bound to its entry's value tensor, in order. -/
def claimRegularizers (ws : List WeightsEntry) : List Regularizer :=
  ws.filterMap (fun e => e.toWeight.regularizer.map (fun r => r.set_param e.toWeight.value))

/-- Fixture: a one-state cell whose step echoes its input as the new state. -/
def fixIdCell : SubUnit :=
  SubUnit.cell [some 2, some 3] [StateSpec.shape [Dim.int 4]]
    (fun a _ => (a, [a])) none

/-- Fixture: a two-state cell whose step duplicates its input. -/
def fixAddCell : SubUnit :=
  SubUnit.cell [some 2, some 3]
    [StateSpec.shape [Dim.int 4], StateSpec.numpy (NpArray.lit 0)]
    (fun a _ => (a, [a, a])) none

/-- Fixture: a plain stateless sub-unit. -/
def fixPlain : SubUnit :=
  SubUnit.plain [some 2, some 3] (fun t => Tensor.slice0 t) (fun s => s)

/-- Fixture pipeline: a plain layer followed by two cells (state counts 2
and 1, hence offsets 0 and 2, total 3). -/
def fixLayers : List SubUnit := [fixPlain, fixAddCell, fixIdCell]

/-- Fixture state vector of length 4 (one position beyond the total declared
state count of `fixLayers`). -/
def fixStates4 : List Tensor :=
  [Tensor.sym 1, Tensor.sym 2, Tensor.sym 3, Tensor.sym 7]

/-- Fixture state vector of length 3. -/
def fixStates3 : List Tensor := [Tensor.sym 1, Tensor.sym 2, Tensor.sym 3]

/-- Fixture: a cell whose single state spec has a dynamic batch-size
sentinel. -/
def fixDynCell : SubUnit :=
  SubUnit.cell [none, some 7, some 3] [StateSpec.shape [Dim.batch_size, Dim.int 4]]
    (fun a s => (a, s)) none

/-- Fixture: a non-stateful container whose stored input spec has a dynamic
(unknown) batch size. -/
def fixDynCont : RecurrentContainer :=
  { RecurrentContainer.mkNew none false false false (some 7) false with
      model := [fixDynCell]
      input_spec_shape := [none, some 7, some 3] }

/-- Fixture: a callable state specification. -/
def fixCallableSpec : StateSpec := StateSpec.callable (fun t => StateVal.single t)

/-- Fixture: a cell with a callable state spec (not statically shaped). -/
def fixCallableCell : SubUnit :=
  SubUnit.cell [some 2, some 3] [fixCallableSpec] (fun a s => (a, s)) none

/-- Fixture: a stateful container holding `fixCallableCell`. -/
def fixStatefulBad : RecurrentContainer :=
  { RecurrentContainer.mkNew none false false true (some 7) false with
      model := [fixCallableCell]
      input_spec_shape := [some 2, some 7, some 3] }

/-- Fixture: a cell with a statically resolvable shape spec. -/
def fixStaticCell : SubUnit :=
  SubUnit.cell [some 2, some 3] [StateSpec.shape [Dim.batch_size, Dim.int 4]]
    (fun a s => (a, s)) none

/-- Fixture: a stateful container holding `fixStaticCell`, with its states
field equal to the value a fresh `reset_states` builds. -/
def fixStatefulGood : RecurrentContainer :=
  { RecurrentContainer.mkNew none false false true (some 7) false with
      model := [fixStaticCell]
      input_spec_shape := [some 2, some 7, some 3]
      states := [Tensor.kvar (NpArray.zeros [Dim.int 2, Dim.int 4])] }

/-- Fixture scan primitive: returns the input as last output, its first
timestep slice as the output sequence, and the initial state unchanged. -/
def fixKRnn : KRnn := fun _ x init _ _ _ _ =>
  { last_output := x, outputs := Tensor.slice0 x, states := init }

/-! ### General lemmas about Python slice assignment -/

theorem listSplice_length {α : Type} (l : List α) (i n : Nat) (new : List α)
    (h : i + n ≤ l.length) :
    (listSplice l i n new).length = l.length - n + new.length := by
  simp [listSplice]
  omega

theorem listSplice_len_ge {α : Type} (l : List α) (i n : Nat) (new : List α)
    (hi : i ≤ l.length) :
    i + new.length ≤ (listSplice l i n new).length := by
  simp [listSplice]
  omega

theorem listSplice_get_lt {α : Type} (l : List α) (i n : Nat) (new : List α)
    (p : Nat) (hp : p < i) (hi : i ≤ l.length) :
    (listSplice l i n new)[p]? = l[p]? := by
  have ht : (l.take i).length = i := by
    simp
    omega
  calc ((l.take i ++ new) ++ l.drop (i + n))[p]?
      = (l.take i ++ new)[p]? := by
        apply List.getElem?_append_left
        rw [List.length_append, ht]
        omega
    _ = (l.take i)[p]? := by
        apply List.getElem?_append_left
        rw [ht]
        exact hp
    _ = l[p]? := List.getElem?_take_of_lt hp

theorem listSplice_get_ge {α : Type} (l : List α) (i n : Nat) (new : List α)
    (p : Nat) (hlen : new.length = n) (hp : i + n ≤ p) (hi : i ≤ l.length) :
    (listSplice l i n new)[p]? = l[p]? := by
  have ht : (l.take i ++ new).length = i + n := by
    simp
    omega
  calc ((l.take i ++ new) ++ l.drop (i + n))[p]?
      = (l.drop (i + n))[p - (l.take i ++ new).length]? := by
        apply List.getElem?_append_right
        omega
    _ = l[(i + n) + (p - (i + n))]? := by
        rw [ht, List.getElem?_drop]
    _ = l[p]? := by
        congr 1
        omega

theorem listSplice_get_mid {α : Type} (l : List α) (i n : Nat) (new : List α)
    (j : Nat) (hj : j < new.length) (hi : i ≤ l.length) :
    (listSplice l i n new)[i + j]? = new[j]? := by
  have ht : (l.take i).length = i := by
    simp
    omega
  calc ((l.take i ++ new) ++ l.drop (i + n))[i + j]?
      = (l.take i ++ new)[i + j]? := by
        apply List.getElem?_append_left
        rw [List.length_append, ht]
        omega
    _ = new[(i + j) - (l.take i).length]? := by
        apply List.getElem?_append_right
        rw [ht]
        omega
    _ = new[j]? := by
        rw [ht]
        congr 1
        omega

/-! ### Properties of the composite step loop -/

theorem totalStates_cons_cell (ish : List (Option Int)) (sts : List StateSpec)
    (f : Tensor → List Tensor → Tensor × List Tensor) (od : Option Int)
    (rest : List SubUnit) :
    totalStates (SubUnit.cell ish sts f od :: rest) = sts.length + totalStates rest := by
  simp [totalStates, SubUnit.stateCount, SubUnit.cellStates]

theorem totalStates_cons_plain (ish : List (Option Int)) (g : Tensor → Tensor)
    (osf : List (Option Int) → List (Option Int)) (rest : List SubUnit) :
    totalStates (SubUnit.plain ish g osf :: rest) = totalStates rest := by
  simp [totalStates, SubUnit.stateCount, SubUnit.cellStates]

theorem stepGo_props (layers : List SubUnit) (x : Tensor) (st : List Tensor)
    (idx : Nat) (H1 : ∀ u ∈ layers, SubUnit.stepPreservesArity u)
    (hidx : idx ≤ st.length) :
    ((stepWritesGo layers x st idx).map Prod.fst = cellOffsetsGo layers idx)
    ∧ (∀ p, p < idx → (stepGo layers x st idx).2[p]? = st[p]?)
    ∧ (∀ p, idx + totalStates layers ≤ p → (stepGo layers x st idx).2[p]? = st[p]?)
    ∧ (∀ ons ∈ stepWritesGo layers x st idx, ∀ j, j < ons.2.length →
        (stepGo layers x st idx).2[ons.1 + j]? = ons.2[j]?) := by
  induction layers generalizing x st idx with
  | nil =>
      refine ⟨rfl, fun p _ => rfl, fun p _ => rfl, fun ons h => ?_⟩
      simp [stepWritesGo] at h
  | cons u rest ih =>
      cases u with
      | plain ish g osf =>
          have hH : ∀ v ∈ rest, SubUnit.stepPreservesArity v :=
            fun v hv => H1 v (List.mem_cons_of_mem _ hv)
          have hrec := ih (g x) st idx hH hidx
          refine ⟨?_, ?_, ?_, ?_⟩
          · simpa [stepWritesGo, cellOffsetsGo] using hrec.1
          · intro p hp
            simpa [stepGo] using hrec.2.1 p hp
          · intro p hp
            rw [totalStates_cons_plain] at hp
            simpa [stepGo] using hrec.2.2.1 p hp
          · intro ons hons j hj
            simp only [stepWritesGo] at hons
            simpa [stepGo] using hrec.2.2.2 ons hons j hj
      | cell ish sts f od =>
          have hA : ∀ a s, ((f a s).2).length = sts.length :=
            H1 _ (List.mem_cons_self _ _)
          have hH : ∀ v ∈ rest, SubUnit.stepPreservesArity v :=
            fun v hv => H1 v (List.mem_cons_of_mem _ hv)
          have hlen : ((f x ((st.drop idx).take sts.length)).2).length = sts.length :=
            hA _ _
          have hsp : idx + sts.length ≤
              (listSplice st idx sts.length (f x ((st.drop idx).take sts.length)).2).length := by
            have := listSplice_len_ge st idx sts.length
              (f x ((st.drop idx).take sts.length)).2 hidx
            omega
          have hrec := ih (f x ((st.drop idx).take sts.length)).1
            (listSplice st idx sts.length (f x ((st.drop idx).take sts.length)).2)
            (idx + sts.length) hH hsp
          refine ⟨?_, ?_, ?_, ?_⟩
          · simpa [stepWritesGo, cellOffsetsGo] using hrec.1
          · intro p hp
            have h1 := hrec.2.1 p (by omega)
            rw [listSplice_get_lt st idx sts.length _ p hp hidx] at h1
            simpa [stepGo] using h1
          · intro p hp
            rw [totalStates_cons_cell] at hp
            have h1 := hrec.2.2.1 p (by omega)
            rw [listSplice_get_ge st idx sts.length _ p hlen (by omega) hidx] at h1
            simpa [stepGo] using h1
          · intro ons hons j hj
            simp only [stepWritesGo, List.mem_cons] at hons
            rcases hons with rfl | hons
            · have h1 := hrec.2.1 (idx + j) (by simp at hj; omega)
              rw [listSplice_get_mid st idx sts.length _ j (by simpa using hj) hidx] at h1
              simpa [stepGo] using h1
            · simpa [stepGo] using hrec.2.2.2 ons hons j hj

theorem stepGo_length (layers : List SubUnit) (x : Tensor) (st : List Tensor)
    (idx : Nat) (H1 : ∀ u ∈ layers, SubUnit.stepPreservesArity u)
    (h : idx + totalStates layers ≤ st.length) :
    (stepGo layers x st idx).2.length = st.length := by
  induction layers generalizing x st idx with
  | nil => rfl
  | cons u rest ih =>
      cases u with
      | plain ish g osf =>
          have hH : ∀ v ∈ rest, SubUnit.stepPreservesArity v :=
            fun v hv => H1 v (List.mem_cons_of_mem _ hv)
          rw [totalStates_cons_plain] at h
          simpa [stepGo] using ih (g x) st idx hH h
      | cell ish sts f od =>
          have hA : ∀ a s, ((f a s).2).length = sts.length :=
            H1 _ (List.mem_cons_self _ _)
          have hH : ∀ v ∈ rest, SubUnit.stepPreservesArity v :=
            fun v hv => H1 v (List.mem_cons_of_mem _ hv)
          rw [totalStates_cons_cell] at h
          have hlen : ((f x ((st.drop idx).take sts.length)).2).length = sts.length :=
            hA _ _
          have hsp : (listSplice st idx sts.length
              (f x ((st.drop idx).take sts.length)).2).length = st.length := by
            rw [listSplice_length st idx sts.length _ (by omega)]
            omega
          have hrec := ih (f x ((st.drop idx).take sts.length)).1
            (listSplice st idx sts.length (f x ((st.drop idx).take sts.length)).2)
            (idx + sts.length) hH (by omega)
          simpa [stepGo, hsp] using hrec

/-- C2: the composite step iterates sub-units in declaration order; assuming
each cell's step returns exactly as many new states as it declares, the write
offsets are exactly the stable declaration-order offsets, every state-vector
position at or beyond the total declared state count keeps exactly its input
value, and the slice starting at each invoked cell's offset holds exactly
that cell's returned new state. -/
theorem C2_step_frame (layers : List SubUnit) (x : Tensor) (states : List Tensor)
    (H1 : ∀ u ∈ layers, SubUnit.stepPreservesArity u) :
    ((stepWrites layers x states).map Prod.fst = cellOffsets layers)
    ∧ (∀ p, totalStates layers ≤ p →
        (RecurrentContainer.step layers x states).2[p]? = states[p]?)
    ∧ (∀ ons ∈ stepWrites layers x states, ∀ j, j < ons.2.length →
        (RecurrentContainer.step layers x states).2[ons.1 + j]? = ons.2[j]?) := by
  obtain ⟨h1, _, h3, h4⟩ := stepGo_props layers x states 0 H1 (Nat.zero_le _)
  exact ⟨h1, fun p hp => h3 p (by omega), h4⟩

/-- Witness for C2 on a concrete pipeline of one plain layer and two cells. -/
theorem C2_step_frame_witness :
    ((stepWrites fixLayers (Tensor.sym 0) fixStates4).map Prod.fst = cellOffsets fixLayers)
    ∧ (∀ p, totalStates fixLayers ≤ p →
        (RecurrentContainer.step fixLayers (Tensor.sym 0) fixStates4).2[p]? = fixStates4[p]?)
    ∧ (∀ ons ∈ stepWrites fixLayers (Tensor.sym 0) fixStates4, ∀ j, j < ons.2.length →
        (RecurrentContainer.step fixLayers (Tensor.sym 0) fixStates4).2[ons.1 + j]? = ons.2[j]?) :=
  C2_step_frame fixLayers (Tensor.sym 0) fixStates4 (by
    intro u hu
    simp only [fixLayers, List.mem_cons, List.not_mem_nil, or_false] at hu
    rcases hu with rfl | rfl | rfl
    · exact trivial
    · intro a s
      rfl
    · intro a s
      rfl)

/-- C10 (amended): assuming each invoked cell's step returns exactly as many
new states as it declares and the incoming state vector is at least as long
as the total declared state count, the composite step returns a state vector
of the same length as the input one. -/
theorem C10_step_state_length (layers : List SubUnit) (x : Tensor)
    (states : List Tensor) (H1 : ∀ u ∈ layers, SubUnit.stepPreservesArity u)
    (H2 : totalStates layers ≤ states.length) :
    (RecurrentContainer.step layers x states).2.length = states.length :=
  stepGo_length layers x states 0 H1 (by omega)

/-- Witness for C10 on a concrete pipeline and a state vector of exactly the
declared total length. -/
theorem C10_step_state_length_witness :
    (RecurrentContainer.step fixLayers (Tensor.sym 0) fixStates3).2.length
      = fixStates3.length :=
  C10_step_state_length fixLayers (Tensor.sym 0) fixStates3 (by
    intro u hu
    simp only [fixLayers, List.mem_cons, List.not_mem_nil, or_false] at hu
    rcases hu with rfl | rfl | rfl
    · exact trivial
    · intro a s
      rfl
    · intro a s
      rfl) (by decide)

/-- The cell used in the C10 counterexample obeys the step contract: its step
always returns exactly the one state it declares. -/
theorem fixIdCell_obeys_contract : SubUnit.stepPreservesArity fixIdCell := by
  intro a s
  rfl

/-- C10 counterexample: with `fixIdCell` (which declares one state and whose
step always returns exactly one new state) and an empty input state list, the
composite step returns a state vector of length 1, not of the input length
0 — Python slice assignment extends the too-short list. -/
theorem C10_step_state_length_cx :
    (RecurrentContainer.step [fixIdCell] (Tensor.sym 0) []).2.length = 1
    ∧ ([] : List Tensor).length = 0 :=
  ⟨rfl, rfl⟩

/-! ### Properties of reset_states -/

theorem substStatefulDim_cases (bs il : Option Int) (d : Dim) :
    (∃ r, substStatefulDim bs il d = .ok r)
    ∨ substStatefulDim bs il d = .error statefulMsg := by
  cases d with
  | int n =>
      rcases Decidable.em (n = -1) with h | h
      · cases bs with
        | some b => exact Or.inl ⟨.int b, by simp [substStatefulDim, h]⟩
        | none => exact Or.inr (by simp [substStatefulDim, h])
      · exact Or.inl ⟨.int n, by simp [substStatefulDim, h]⟩
  | batch_size =>
      cases bs with
      | some b => exact Or.inl ⟨.int b, rfl⟩
      | none => exact Or.inr rfl
  | input_length =>
      cases il with
      | some l => exact Or.inl ⟨.int l, rfl⟩
      | none => exact Or.inr rfl
  | kshape x i => exact Or.inl ⟨.kshape x i, rfl⟩

theorem mapM_except_error {α β : Type} (f : α → Except String β) (msg : String)
    (l : List α)
    (hcanon : ∀ a ∈ l, (∃ r, f a = .ok r) ∨ f a = .error msg)
    (hbad : ∃ a ∈ l, ∀ r, f a ≠ .ok r) :
    l.mapM f = .error msg := by
  induction l with
  | nil => simp at hbad
  | cons a t ih =>
      rcases hcanon a (List.mem_cons_self _ _) with ⟨r, hr⟩ | hr
      · rcases hbad with ⟨b, hb, hbne⟩
        rcases List.mem_cons.mp hb with rfl | hbt
        · exact absurd hr (hbne r)
        · have hrec := ih (fun a' ha' => hcanon _ (List.mem_cons_of_mem _ ha'))
            ⟨b, hbt, hbne⟩
          rw [List.mapM_cons, hr]
          show (t.mapM f >>= fun bs => pure (r :: bs)) = Except.error msg
          rw [hrec]
          rfl
      · rw [List.mapM_cons, hr]
        rfl

theorem mapM_except_cases {α β : Type} (f : α → Except String β) (msg : String)
    (l : List α)
    (hcanon : ∀ a ∈ l, (∃ r, f a = .ok r) ∨ f a = .error msg) :
    (∃ rs, l.mapM f = .ok rs) ∨ l.mapM f = .error msg := by
  induction l with
  | nil => exact Or.inl ⟨[], rfl⟩
  | cons a t ih =>
      rcases hcanon a (List.mem_cons_self _ _) with ⟨r, hr⟩ | hr
      · rcases ih (fun b hb => hcanon b (List.mem_cons_of_mem _ hb)) with ⟨rs, hrs⟩ | hrs
        · refine Or.inl ⟨r :: rs, ?_⟩
          rw [List.mapM_cons, hr]
          show (t.mapM f >>= fun bs => pure (r :: bs)) = _
          rw [hrs]
          rfl
        · refine Or.inr ?_
          rw [List.mapM_cons, hr]
          show (t.mapM f >>= fun bs => pure (r :: bs)) = _
          rw [hrs]
          rfl
      · refine Or.inr ?_
        rw [List.mapM_cons, hr]
        rfl

theorem resetStateOfSpec_cases (bs il : Option Int) (s : StateSpec) :
    (∃ t, resetStateOfSpec bs il s = .ok t)
    ∨ resetStateOfSpec bs il s = .error statefulMsg := by
  cases s with
  | numpy a => exact Or.inl ⟨Tensor.kvar a, rfl⟩
  | callable f => exact Or.inr rfl
  | tensor t => exact Or.inr rfl
  | shape dims =>
      rcases mapM_except_cases (substStatefulDim bs il) statefulMsg dims
          (fun d _ => substStatefulDim_cases bs il d) with ⟨rs, hrs⟩ | hrs
      · refine Or.inl ⟨Tensor.kvar (NpArray.zeros rs), ?_⟩
        simp only [resetStateOfSpec]
        rw [hrs]
        rfl
      · refine Or.inr ?_
        simp only [resetStateOfSpec]
        rw [hrs]
        rfl

theorem resetStateOfSpec_bad (bs il : Option Int) (s : StateSpec)
    (h : specStaticallyBad bs il s = true) :
    resetStateOfSpec bs il s = .error statefulMsg := by
  cases s with
  | callable f => rfl
  | tensor t => rfl
  | numpy a => simp [specStaticallyBad] at h
  | shape dims =>
      simp only [specStaticallyBad, List.any_eq_true] at h
      rcases h with ⟨d, hd, hP⟩
      have herr : substStatefulDim bs il d = .error statefulMsg := by
        cases d with
        | int n =>
            simp at hP
            obtain ⟨hn, hbs⟩ := hP
            simp [substStatefulDim, hn, hbs]
        | batch_size =>
            simp at hP
            simp [substStatefulDim, hP]
        | input_length =>
            simp at hP
            simp [substStatefulDim, hP]
        | kshape x i => simp at hP
      have hmain := mapM_except_error (substStatefulDim bs il) statefulMsg dims
        (fun a _ => substStatefulDim_cases bs il a)
        ⟨d, hd, fun r hr => by rw [herr] at hr; exact Except.noConfusion hr⟩
      simp only [resetStateOfSpec]
      rw [hmain]
      rfl

/-- C5: in stateful mode, `reset_states` raises the static-shape assertion
message whenever any cell's state specification is a callable or a raw
tensor, or a shape whose batch-size or input-length sentinel cannot be
resolved to a concrete integer — and it leaves the container, in particular
the stored persistent state vector, entirely unchanged. -/
theorem C5_reset_states_static_error (c : RecurrentContainer) (u : SubUnit)
    (s : StateSpec) (_hst : c.stateful = true) (hu : u ∈ c.model)
    (hs : s ∈ SubUnit.cellStates u)
    (hbad : specStaticallyBad (c.input_spec_shape.getD 0 none)
      (c.input_spec_shape.getD 1 none) s = true) :
    c.reset_states = (c, some statefulMsg) := by
  have herr : resetStatesList (c.input_spec_shape.getD 0 none)
      (c.input_spec_shape.getD 1 none) c.model = .error statefulMsg := by
    unfold resetStatesList
    apply mapM_except_error
    · exact fun a _ => resetStateOfSpec_cases _ _ a
    · refine ⟨s, ?_, ?_⟩
      · exact List.mem_flatten.mpr ⟨SubUnit.cellStates u, List.mem_map_of_mem _ hu, hs⟩
      · intro r hr
        rw [resetStateOfSpec_bad _ _ s hbad] at hr
        exact Except.noConfusion hr
  unfold RecurrentContainer.reset_states
  rw [herr]

/-- Witness for C5: a stateful container whose only cell declares a callable
state spec. -/
theorem C5_reset_states_static_error_witness :
    fixStatefulBad.stateful = true
    ∧ specStaticallyBad (fixStatefulBad.input_spec_shape.getD 0 none)
        (fixStatefulBad.input_spec_shape.getD 1 none) fixCallableSpec = true
    ∧ fixStatefulBad.reset_states = (fixStatefulBad, some statefulMsg) :=
  ⟨rfl, rfl,
    C5_reset_states_static_error fixStatefulBad fixCallableCell fixCallableSpec rfl
      (by simp [fixStatefulBad]) (by simp [fixCallableCell, SubUnit.cellStates]) rfl⟩

/-! ### Properties of the forward call -/

theorem range_map_getD_eq_zip (l1 l2 : List Tensor) (d : Tensor)
    (h : l1.length = l2.length) :
    (List.range l2.length).map (fun i => (l1.getD i d, l2.getD i d)) = l1.zip l2 := by
  induction l2 generalizing l1 with
  | nil =>
      cases l1 with
      | nil => rfl
      | cons a s => simp at h
  | cons b t ih =>
      cases l1 with
      | nil => simp at h
      | cons a s =>
          have hlen : s.length = t.length := by
            simpa using h
          rw [List.length_cons, List.range_succ_eq_map, List.map_cons, List.map_map]
          have hmap : List.map ((fun i => ((a :: s).getD i d, (b :: t).getD i d)) ∘ Nat.succ)
              (List.range t.length)
              = List.map (fun i => (s.getD i d, t.getD i d)) (List.range t.length) := by
            apply List.map_congr_left
            intro i _
            simp [Function.comp]
          rw [hmap, ih s hlen]
          simp

/-- C1: the forward call passes the persistent state vector as the scan
primitive's initial state when stateful and a freshly constructed initial
state otherwise; it returns the scan's full output sequence exactly when
`return_sequences` is set and its last output otherwise; when stateful it
records one `(persistent variable, final state)` pair per state position in
`updates` while leaving `states` itself untouched; and when not stateful it
leaves the container entirely unchanged. -/
theorem C1_forward_call (c : RecurrentContainer) (krnn : KRnn) (x : Tensor)
    (mask : Option Tensor)
    (hlen : (krnn (RecurrentContainer.step c.model) x
        (if c.stateful then c.states else c.get_initial_states x)
        c.go_backwards mask c.unroll (c.input_spec_shape.getD 1 none)).states.length
      = c.states.length) :
    ((c.call krnn x mask).1 =
      (if c.return_sequences then
        (krnn (RecurrentContainer.step c.model) x
          (if c.stateful then c.states else c.get_initial_states x)
          c.go_backwards mask c.unroll (c.input_spec_shape.getD 1 none)).outputs
       else
        (krnn (RecurrentContainer.step c.model) x
          (if c.stateful then c.states else c.get_initial_states x)
          c.go_backwards mask c.unroll (c.input_spec_shape.getD 1 none)).last_output))
    ∧ ((c.call krnn x mask).2.states = c.states)
    ∧ (c.stateful = true →
        (c.call krnn x mask).2.updates = some (c.states.zip
          (krnn (RecurrentContainer.step c.model) x c.states
            c.go_backwards mask c.unroll (c.input_spec_shape.getD 1 none)).states))
    ∧ (c.stateful = false → (c.call krnn x mask).2 = c) := by
  cases hst : c.stateful with
  | false =>
      refine ⟨?_, ?_, ?_, ?_⟩
      · simp [RecurrentContainer.call, hst]
      · simp [RecurrentContainer.call, hst]
      · intro hcontra
        exact Bool.noConfusion hcontra
      · intro _
        simp [RecurrentContainer.call, hst]
  | true =>
      rw [hst] at hlen
      simp only [if_true] at hlen
      refine ⟨?_, ?_, ?_, ?_⟩
      · simp [RecurrentContainer.call, hst]
      · simp [RecurrentContainer.call, hst]
      · intro _
        simp only [RecurrentContainer.call, hst, if_true]
        rw [range_map_getD_eq_zip c.states _ (Tensor.sym 0) hlen.symm]
      · intro hcontra
        exact Bool.noConfusion hcontra

/-- Witness for C1 on a concrete stateful container and a concrete scan
primitive that returns the initial state as the final state. -/
theorem C1_forward_call_witness :
    ((fixKRnn (RecurrentContainer.step fixStatefulGood.model) (Tensor.sym 5)
        (if fixStatefulGood.stateful then fixStatefulGood.states
         else fixStatefulGood.get_initial_states (Tensor.sym 5))
        fixStatefulGood.go_backwards none fixStatefulGood.unroll
        (fixStatefulGood.input_spec_shape.getD 1 none)).states.length
      = fixStatefulGood.states.length)
    ∧ ((fixStatefulGood.call fixKRnn (Tensor.sym 5) none).2.updates
        = some (fixStatefulGood.states.zip
            (fixKRnn (RecurrentContainer.step fixStatefulGood.model) (Tensor.sym 5)
              fixStatefulGood.states fixStatefulGood.go_backwards none
              fixStatefulGood.unroll
              (fixStatefulGood.input_spec_shape.getD 1 none)).states)) :=
  ⟨rfl, (C1_forward_call fixStatefulGood fixKRnn (Tensor.sym 5) none rfl).2.2.1 rfl⟩

/-- C3 (amended): initial-state resolution applies the four rules in priority
order — a callable is invoked with the current running input and its result
used directly; a shape spec has the sentinels `-1` and `batch_size` replaced
by the resolved batch size and `input_length` by the resolved input length
and is materialized as a backend zero tensor; a numpy array is wrapped as an
engine variable; anything else passes through unchanged — where the resolved
batch size and input length are the stored static dimensions when known and
the symbolic runtime dimensions of the input otherwise; no concreteness of
the resolved values is required or checked in this non-stateful branch. -/
theorem C3_state_resolution (input : Tensor) (bs il : Dim) (f : Tensor → StateVal)
    (dims : List Dim) (a : NpArray) (t : Tensor) (c : RecurrentContainer)
    (x : Tensor) :
    (RecurrentContainer.get_state_from_info (StateSpec.callable f) input bs il = f input)
    ∧ (RecurrentContainer.get_state_from_info (StateSpec.shape dims) input bs il
        = StateVal.single (Tensor.kzeros (dims.map (substDim bs il))))
    ∧ (substDim bs il (Dim.int (-1)) = bs ∧ substDim bs il Dim.batch_size = bs
        ∧ substDim bs il Dim.input_length = il ∧ substDim bs il (Dim.int 5) = Dim.int 5)
    ∧ (RecurrentContainer.get_state_from_info (StateSpec.numpy a) input bs il
        = StateVal.single (Tensor.kvar a))
    ∧ (RecurrentContainer.get_state_from_info (StateSpec.tensor t) input bs il
        = StateVal.single t)
    ∧ (RecurrentContainer.get_state_from_info
        (StateSpec.shape [Dim.batch_size, Dim.input_length, Dim.int 3])
        input (Dim.int 5) (Dim.int 7)
        = StateVal.single (Tensor.kzeros [Dim.int 5, Dim.int 7, Dim.int 3]))
    ∧ (c.get_initial_states x = initialStatesGo c.model (Tensor.slice0 x)
        (match c.input_spec_shape.getD 0 none with
         | some n => Dim.int n
         | none => Dim.kshape x 0)
        (match c.input_spec_shape.getD 1 none with
         | some n => Dim.int n
         | none => Dim.kshape x 1)) :=
  ⟨rfl, rfl, ⟨rfl, rfl, rfl, rfl⟩, rfl, rfl, rfl, rfl⟩

/-- C3 counterexample: with a dynamic (unknown) stored batch size, the shape
branch of initial-state resolution runs and completes with the symbolic
runtime dimension substituted for the sentinel — the resolved batch size is
not required to be a concrete integer in this branch. -/
theorem C3_state_resolution_cx :
    RecurrentContainer.get_initial_states fixDynCont (Tensor.sym 0)
      = [Tensor.kzeros [Dim.kshape (Tensor.sym 0) 0, Dim.int 4]]
    ∧ Dim.isConcreteInt (Dim.kshape (Tensor.sym 0) 0) = false :=
  ⟨rfl, rfl⟩

/-- C4 (amended): the dispatch wrapper builds the list `[input, state,
parameters]` (parameters are always present because `weights` is a class
property), appends `constants` when that attribute is set, and truncates to
the reflected declared argument count of the user step function.  For a
plain-function step whose reflected count equals its recognized argument
count, it therefore passes exactly as many of input, state, parameters,
constants as the step declares, in that fixed order; for a bound-method step
the reflected count includes the implicit `self`, so one more entry than the
recognized count is passed (bounded by what is available). -/
theorem C4_step_dispatch {α : Type} (x s w cs : α) :
    (RNNCell.step_args x s w (some cs) true 1 = [x])
    ∧ (RNNCell.step_args x s w (some cs) true 2 = [x, s])
    ∧ (RNNCell.step_args x s w (some cs) true 3 = [x, s, w])
    ∧ (RNNCell.step_args x s w (some cs) true 4 = [x, s, w, cs])
    ∧ (RNNCell.step_args x s w none true 3 = [x, s, w])
    ∧ (RNNCell.step_args x s w none true 4 = [x, s, w]) :=
  ⟨rfl, rfl, rfl, rfl, rfl, rfl⟩

/-- C4 counterexample: a bound-method step declaring `(self, input, state)` —
two recognized arguments — has a reflected argument list of length 3
(`getargspec` includes `self`), so the wrapper passes input, state AND the
parameter list: three entries, not the two the claim promises, and the
parameter list is received. -/
theorem C4_step_dispatch_cx :
    @RNNCell.step_args Nat 10 20 30 none true 3 = [10, 20, 30]
    ∧ ([10, 20, 30] : List Nat) ≠ [10, 20]
    ∧ ([10, 20, 30] : List Nat).length ≠ 2 :=
  ⟨rfl, by decide, by decide⟩

/-- C9: `get_output_shape_for` of a container ignores its input-shape
argument — any two calls agree, and both return the container's
`output_shape`, which is derived from the stored input spec and the
sub-unit pipeline alone. -/
theorem C9_output_shape_ignores_arg (c : RecurrentContainer)
    (s1 s2 : List (Option Int)) :
    c.get_output_shape_for s1 = c.get_output_shape_for s2
    ∧ c.get_output_shape_for s1 = c.output_shape :=
  ⟨rfl, rfl⟩

/-- C6: serializing a container's configuration and deserializing it yields a
container whose five mode flags equal the original's, and — given that the
external pipeline serialization round trip preserves pipeline length and
per-sub-unit shapes — whose rebuilt sub-unit pipeline has the same length
and per-sub-unit shapes; the flags are rebuilt by the constructor first and
the pipeline is then rebuilt from its serialized form. -/
theorem C6_config_roundtrip {MC : Type} (c : RecurrentContainer)
    (seq_get : List SubUnit → MC) (seq_from : MC → List SubUnit)
    (hlen : (seq_from (seq_get c.model)).length = c.model.length)
    (hshape : ∀ i : Nat, ((seq_from (seq_get c.model))[i]?).map SubUnit.input_spec_shape
        = (c.model[i]?).map SubUnit.input_spec_shape) :
    ((RecurrentContainer.from_config (c.get_config seq_get) seq_from).return_sequences
        = c.return_sequences)
    ∧ ((RecurrentContainer.from_config (c.get_config seq_get) seq_from).go_backwards
        = c.go_backwards)
    ∧ ((RecurrentContainer.from_config (c.get_config seq_get) seq_from).stateful
        = c.stateful)
    ∧ ((RecurrentContainer.from_config (c.get_config seq_get) seq_from).input_length
        = c.input_length)
    ∧ ((RecurrentContainer.from_config (c.get_config seq_get) seq_from).unroll
        = c.unroll)
    ∧ ((RecurrentContainer.from_config (c.get_config seq_get) seq_from).model.length
        = c.model.length)
    ∧ (∀ i : Nat,
        (((RecurrentContainer.from_config (c.get_config seq_get) seq_from).model[i]?).map
          SubUnit.input_spec_shape = (c.model[i]?).map SubUnit.input_spec_shape)) :=
  ⟨rfl, rfl, rfl, rfl, rfl, hlen, hshape⟩

/-- Witness for C6 on a concrete container, with the external pipeline
serialization instantiated by an exact round trip. -/
theorem C6_config_roundtrip_witness :
    (((fun ls => ls) ((fun ls => ls) fixStatefulGood.model) : List SubUnit).length
        = fixStatefulGood.model.length)
    ∧ ((RecurrentContainer.from_config
          (fixStatefulGood.get_config (fun ls => ls)) (fun ls => ls)).return_sequences
        = fixStatefulGood.return_sequences)
    ∧ ((RecurrentContainer.from_config
          (fixStatefulGood.get_config (fun ls => ls)) (fun ls => ls)).model.length
        = fixStatefulGood.model.length) :=
  ⟨rfl,
    (C6_config_roundtrip fixStatefulGood (fun ls => ls) (fun ls => ls) rfl
      (fun _ => rfl)).1,
    (C6_config_roundtrip fixStatefulGood (fun ls => ls) (fun ls => ls) rfl
      (fun _ => rfl)).2.2.2.2.2.1⟩

/-! ### Properties of the weights setter -/

theorem set_weights_go (acc : CellWeights) (ws : List WeightsEntry) :
    ws.foldl weightsSetterStep acc =
      { trainable_weights := acc.trainable_weights ++ claimTrainable ws
        non_trainable_weights := acc.non_trainable_weights ++ claimNonTrainable ws
        regularizers := acc.regularizers ++ claimRegularizers ws } := by
  induction ws generalizing acc with
  | nil =>
      simp [claimTrainable, claimNonTrainable, claimRegularizers]
  | cons e t ih =>
      rw [List.foldl_cons, ih]
      cases htr : e.toWeight.trainable with
      | true =>
          cases hreg : e.toWeight.regularizer with
          | none =>
              simp [weightsSetterStep, htr, hreg, claimTrainable, claimNonTrainable,
                claimRegularizers, List.filterMap_cons, List.append_assoc]
          | some r =>
              simp [weightsSetterStep, htr, hreg, claimTrainable, claimNonTrainable,
                claimRegularizers, List.filterMap_cons, List.append_assoc]
      | false =>
          cases hreg : e.toWeight.regularizer with
          | none =>
              simp [weightsSetterStep, htr, hreg, claimTrainable, claimNonTrainable,
                claimRegularizers, List.filterMap_cons, List.append_assoc]
          | some r =>
              simp [weightsSetterStep, htr, hreg, claimTrainable, claimNonTrainable,
                claimRegularizers, List.filterMap_cons, List.append_assoc]

/-- C8: assigning the parameter list partitions the (normalized) entries into
trainable and non-trainable value groups by their trainability flag, collects
every present regularizer bound to its value tensor, treats raw entries as
trainable with no regularizer, and fully replaces any prior parameter set —
the result is independent of the prior stored set, and repeating the same
assignment is idempotent. -/
theorem C8_weights_setter (prior prior2 : CellWeights) (ws : List WeightsEntry) :
    ((RNNCell.set_weights prior ws).trainable_weights = claimTrainable ws)
    ∧ ((RNNCell.set_weights prior ws).non_trainable_weights = claimNonTrainable ws)
    ∧ ((RNNCell.set_weights prior ws).regularizers = claimRegularizers ws)
    ∧ (RNNCell.set_weights prior ws = RNNCell.set_weights prior2 ws)
    ∧ (RNNCell.set_weights (RNNCell.set_weights prior ws) ws
        = RNNCell.set_weights prior ws)
    ∧ (∀ v : WVal, (WeightsEntry.raw v).toWeight.trainable = true
        ∧ (WeightsEntry.raw v).toWeight.regularizer = none) := by
  have hgo := set_weights_go
    { trainable_weights := [], non_trainable_weights := [], regularizers := [] } ws
  refine ⟨?_, ?_, ?_, rfl, rfl, ?_⟩
  · show (ws.foldl weightsSetterStep
      { trainable_weights := [], non_trainable_weights := [], regularizers := [] }).trainable_weights = _
    rw [hgo]
    simp
  · show (ws.foldl weightsSetterStep
      { trainable_weights := [], non_trainable_weights := [], regularizers := [] }).non_trainable_weights = _
    rw [hgo]
    simp
  · show (ws.foldl weightsSetterStep
      { trainable_weights := [], non_trainable_weights := [], regularizers := [] }).regularizers = _
    rw [hgo]
    simp
  · intro v
    cases v <;> exact ⟨rfl, rfl⟩

/-! ### Properties of add and pop -/

theorem reset_states_parts (c : RecurrentContainer) :
    ((c.reset_states).1.model = c.model)
    ∧ ((c.reset_states).1.input_spec_shape = c.input_spec_shape)
    ∧ ((c.reset_states).1.stateful = c.stateful) := by
  unfold RecurrentContainer.reset_states
  cases hr : resetStatesList (c.input_spec_shape.getD 0 none)
      (c.input_spec_shape.getD 1 none) c.model with
  | ok sts => exact ⟨rfl, rfl, rfl⟩
  | error m => exact ⟨rfl, rfl, rfl⟩

theorem add_model (c : RecurrentContainer) (l : SubUnit) :
    (c.add l).1.model = c.model ++ [l] := by
  unfold RecurrentContainer.add
  by_cases hst : c.stateful
  · simp only [hst, if_true]
    exact (reset_states_parts _).1
  · simp [hst]

theorem add_stateful (c : RecurrentContainer) (l : SubUnit) :
    (c.add l).1.stateful = c.stateful := by
  unfold RecurrentContainer.add
  by_cases hst : c.stateful
  · simp only [hst, if_true]
    exact (reset_states_parts _).2.2
  · simp [hst]

theorem add_shape (c : RecurrentContainer) (l : SubUnit) :
    (c.add l).1.input_spec_shape =
      (if (c.model ++ [l]).length = 1 then
        (SubUnit.input_spec_shape l).getD 0 none ::
          c.input_length :: (SubUnit.input_spec_shape l).drop 1
      else c.input_spec_shape) := by
  unfold RecurrentContainer.add
  by_cases hst : c.stateful
  · simp only [hst, if_true]
    exact (reset_states_parts _).2.1
  · simp [hst]


theorem add_states_nonstateful (c : RecurrentContainer) (l : SubUnit)
    (hst : c.stateful = false) : (c.add l).1.states = c.states := by
  unfold RecurrentContainer.add
  simp [hst]

theorem pop_nonstateful (c : RecurrentContainer) (hst : c.stateful = false) :
    c.pop = ({ c with model := c.model.dropLast }, none) := by
  unfold RecurrentContainer.pop
  simp [hst]

theorem pop_stateful_ok (c : RecurrentContainer) (hst : c.stateful = true)
    (sts : List Tensor)
    (h : resetStatesList (c.input_spec_shape.getD 0 none)
      (c.input_spec_shape.getD 1 none) c.model.dropLast = .ok sts) :
    (c.pop.1.model = c.model.dropLast) ∧ (c.pop.1.states = sts) ∧ (c.pop.2 = none) := by
  unfold RecurrentContainer.pop RecurrentContainer.reset_states
  simp only [List.getD_eq_getElem?_getD] at h
  simp [hst, h]

/-- C7: `add` followed immediately by `pop` restores the sub-unit list to its
prior contents; in stateful mode, provided the container's stored persistent
state vector equals what its own (successful) `reset_states` builds, the
persistent state vector after the `pop` equals the prior one — rebuilt with
the same count and shapes, all values freshly zero-built — and no error is
raised. -/
theorem C7_add_pop_restores (c : RecurrentContainer) (l : SubUnit)
    (h : c.stateful = true →
      (c.reset_states.2 = none ∧ c.reset_states.1.states = c.states)) :
    (((c.add l).1.pop).1.model = c.model)
    ∧ (((c.add l).1.pop).1.states = c.states)
    ∧ (((c.add l).1.pop).2 = none) := by
  cases hst : c.stateful with
  | false =>
      have hA_st : (c.add l).1.stateful = false := by
        rw [add_stateful]
        exact hst
      rw [pop_nonstateful _ hA_st]
      refine ⟨?_, ?_, rfl⟩
      · show (c.add l).1.model.dropLast = c.model
        rw [add_model, List.dropLast_concat]
      · show (c.add l).1.states = c.states
        exact add_states_nonstateful c l hst
  | true =>
      obtain ⟨h1, h2⟩ := h hst
      have hok : resetStatesList (c.input_spec_shape.getD 0 none)
          (c.input_spec_shape.getD 1 none) c.model = .ok c.states := by
        unfold RecurrentContainer.reset_states at h1 h2
        cases hr : resetStatesList (c.input_spec_shape.getD 0 none)
            (c.input_spec_shape.getD 1 none) c.model with
        | error m =>
            rw [hr] at h1
            simp at h1
        | ok sts =>
            rw [hr] at h2
            simp at h2
            rw [h2]
      have hA_st : (c.add l).1.stateful = true := by
        rw [add_stateful]
        exact hst
      have hmodel : (c.add l).1.model.dropLast = c.model := by
        rw [add_model, List.dropLast_concat]
      have hkey : resetStatesList ((c.add l).1.input_spec_shape.getD 0 none)
          ((c.add l).1.input_spec_shape.getD 1 none) c.model = .ok c.states := by
        by_cases hm : c.model = []
        · have hs0 : c.states = [] := by
            rw [hm] at hok
            have h0 : resetStatesList (c.input_spec_shape.getD 0 none)
                (c.input_spec_shape.getD 1 none) ([] : List SubUnit)
                = Except.ok ([] : List Tensor) := rfl
            rw [h0] at hok
            exact (Except.ok.inj hok).symm
          rw [hm, hs0]
          rfl
        · have hne : ¬((c.model ++ [l]).length = 1) := by
            simp only [List.length_append, List.length_cons, List.length_nil]
            intro hcontra
            apply hm
            apply List.length_eq_zero.mp
            omega
          have hsh : (c.add l).1.input_spec_shape = c.input_spec_shape := by
            rw [add_shape, if_neg hne]
          rw [hsh]
          exact hok
      obtain ⟨hpm, hps, hpe⟩ := pop_stateful_ok (c.add l).1 hA_st c.states
        (by rw [hmodel]; exact hkey)
      refine ⟨?_, hps, hpe⟩
      rw [hpm, hmodel]

/-- Witness for C7: a stateful container whose stored persistent state vector
is the one a fresh `reset_states` builds; adding and popping a layer restores
pipeline and state vector exactly. -/
theorem C7_add_pop_restores_witness :
    (((fixStatefulGood.add fixIdCell).1.pop).1.model = fixStatefulGood.model)
    ∧ (((fixStatefulGood.add fixIdCell).1.pop).1.states = fixStatefulGood.states)
    ∧ (((fixStatefulGood.add fixIdCell).1.pop).2 = none) :=
  C7_add_pop_restores fixStatefulGood fixIdCell (fun _ => ⟨rfl, rfl⟩)
